import Mathlib

/-!
# Verification of `generate_glove_subset.py`

A shallow embedding of the single script in this repository, which downloads
the GloVe 6B corpus and extracts a JSON subset of word vectors: the top
`VOCAB_SIZE` words by frequency rank plus a fixed required-word set.

Modelling choices:
* Python's `dict` is an association list with insert-or-overwrite semantics
  (`dictInsert`), which keeps first-insertion order and never duplicates keys.
* `float(x)` followed by `round(_, 6)` is modelled over exact rationals:
  `parseFloat` parses decimal/scientific notation to `ℚ` and `pyRound6`
  performs round-half-to-even at six decimal places, as Python's `round` does.
* `line.strip().split()` is `pyTokenize`: split on whitespace runs, dropping
  empty pieces.
* The extraction loop is a fold in `Except PyError`: `indexError` models the
  unguarded `parts[0]` on an empty token list, `valueError` models a failing
  `float(x)` on a kept line.
* `download_glove` touches only the filesystem and the network; it is modelled
  as a function on a two-flag filesystem state recording how many network
  fetches and file writes it performs.
-/

namespace GloveSubset

/-- Accumulate a digit string into a natural number (`int("…")` on digits). -/
def digitsToNat (ds : List Char) : Nat :=
  ds.foldl (fun n c => n * 10 + (c.toNat - 48)) 0

/-- Parse an optional exponent suffix (`e5`, `E-3`, …) applied to mantissa `m`;
`none` when the remaining characters are not a valid exponent. -/
def parseExpPart (m : ℚ) (cs : List Char) : Option ℚ :=
  match cs with
  | [] => some m
  | c :: rest =>
    if c = 'e' ∨ c = 'E' then
      let signAndDigits : Bool × List Char :=
        match rest with
        | '+' :: r => (true, r)
        | '-' :: r => (false, r)
        | r => (true, r)
      let ds := signAndDigits.2
      if ds ≠ [] ∧ ds.all Char.isDigit then
        some (if signAndDigits.1 then m * 10 ^ digitsToNat ds
              else m / 10 ^ digitsToNat ds)
      else none
    else none

/-- Parse an unsigned decimal mantissa with optional fractional part and
optional exponent, e.g. `12`, `0.5`, `.5`, `1.`, `1.5e-3`. -/
def parseMantissa (cs : List Char) : Option ℚ :=
  let ip := cs.takeWhile Char.isDigit
  let rest := cs.dropWhile Char.isDigit
  match rest with
  | '.' :: rest2 =>
    let fp := rest2.takeWhile Char.isDigit
    let rest3 := rest2.dropWhile Char.isDigit
    if ip = [] ∧ fp = [] then none
    else parseExpPart ((digitsToNat ip : ℚ) + (digitsToNat fp : ℚ) / 10 ^ fp.length) rest3
  | _ =>
    if ip = [] then none
    else parseExpPart (digitsToNat ip : ℚ) rest

/-- `float(x)` for a (whitespace-free) token, over exact rationals:
`none` models a `ValueError`. -/
def parseFloat (s : String) : Option ℚ :=
  match s.data with
  | '+' :: cs => parseMantissa cs
  | '-' :: cs => (parseMantissa cs).map (fun q => -q)
  | cs => parseMantissa cs

/-- Round a rational to the nearest integer, ties to even (Python rounding). -/
def roundHalfEven (q : ℚ) : ℤ :=
  let n := ⌊q⌋
  let r := q - (n : ℚ)
  if r < 1 / 2 then n
  else if 1 / 2 < r then n + 1
  else if n % 2 = 0 then n else n + 1

/-- `round(q, 6)`: round to six decimal places, ties to even. -/
def pyRound6 (q : ℚ) : ℚ :=
  (roundHalfEven (q * 1000000) : ℚ) / 1000000

/-- Split a character list on whitespace runs, dropping empty pieces;
`acc` holds the (reversed) characters of the token being built. -/
def splitWsAux : List Char → List Char → List (List Char)
  | [], acc => if acc.isEmpty then [] else [acc.reverse]
  | c :: cs, acc =>
    if c.isWhitespace then
      if acc.isEmpty then splitWsAux cs [] else acc.reverse :: splitWsAux cs []
    else splitWsAux cs (c :: acc)

/-- `line.strip().split()`: whitespace tokenisation with empties dropped. -/
def pyTokenize (s : String) : List String :=
  (splitWsAux s.data []).map (fun cs => String.mk cs)

/-- `[round(float(x), 6) for x in toks]`; `none` models a `ValueError` raised
by some `float(x)`. -/
def parseVec (toks : List String) : Option (List ℚ) :=
  toks.mapM (fun t => (parseFloat t).map pyRound6)

/-- Python `dict` assignment `d[k] = v` on an association list: overwrite in
place when the key exists, append otherwise. -/
def dictInsert (d : List (String × List ℚ)) (k : String) (v : List ℚ) :
    List (String × List ℚ) :=
  if d.any (fun p => p.1 == k) then
    d.map (fun p => if p.1 = k then (k, v) else p)
  else d ++ [(k, v)]

/-- The fatal exceptions the extraction loop can raise. -/
inductive PyError where
  | indexError
  | valueError
deriving DecidableEq, Repr

/-- The loop state of `generate_subset`: the accumulated embedding table and
the line-count cursor. -/
structure SubState where
  embeddings : List (String × List ℚ)
  lineCount : Nat
deriving DecidableEq, Repr

/-- `VOCAB_SIZE = 5000` from the script. -/
def VOCAB_SIZE : Nat := 5000

/-- `REQUIRED_WORDS` from the script. -/
def REQUIRED_WORDS : List String :=
  ["king", "queen", "man", "woman", "prince", "princess",
   "boy", "girl", "father", "mother", "son", "daughter",
   "brother", "sister", "husband", "wife", "uncle", "aunt",
   "grandfather", "grandmother", "lord", "lady", "duke", "duchess",
   "emperor", "empress", "sir", "madam",
   "he", "she", "him", "her", "his", "hers", "male", "female",
   "france", "paris", "germany", "berlin", "japan", "tokyo",
   "italy", "rome", "spain", "madrid", "china", "beijing",
   "russia", "moscow", "brazil", "india", "delhi", "canada", "ottawa",
   "doctor", "nurse", "engineer", "teacher", "programmer", "scientist",
   "lawyer", "pilot", "mechanic", "secretary", "professor", "surgeon",
   "accountant", "architect", "carpenter", "chef", "dentist",
   "electrician", "firefighter", "journalist", "librarian", "manager",
   "musician", "painter", "pharmacist", "plumber", "police",
   "receptionist", "soldier", "veterinarian",
   "cat", "dog", "horse", "bird", "fish", "lion", "tiger", "bear",
   "wolf", "eagle", "snake", "rabbit",
   "happy", "sad", "angry", "afraid", "surprised", "calm", "excited",
   "anxious", "proud", "love", "hate", "fear", "joy",
   "pizza", "sushi", "pasta", "rice", "bread", "cheese",
   "walking", "walked", "running", "ran", "swimming", "swam",
   "flying", "flew",
   "computer", "technology", "algorithm", "data", "intelligence",
   "artificial", "ethics", "bias", "fair", "unfair", "justice",
   "equality", "freedom", "privacy", "safety", "risk"]

/-- One iteration of the extraction loop, on one raw line.  Mirrors:
`parts = line.strip().split(); word = parts[0];
if line_count < VOCAB_SIZE or word in REQUIRED_WORDS:
  vec = [round(float(x), 6) for x in parts[1:]];
  if len(vec) == 50: embeddings[word] = vec;
line_count += 1`.  Parametrised over the module constants `required`
(`REQUIRED_WORDS`) and `vocabSize` (`VOCAB_SIZE`). -/
def processLine (required : List String) (vocabSize : Nat)
    (st : SubState) (line : String) : Except PyError SubState :=
  match pyTokenize line with
  | [] => .error .indexError
  | word :: rest =>
    if st.lineCount < vocabSize ∨ word ∈ required then
      match parseVec rest with
      | none => .error .valueError
      | some vec =>
        let emb := if vec.length = 50 then dictInsert st.embeddings word vec
                   else st.embeddings
        .ok ⟨emb, st.lineCount + 1⟩
    else
      .ok ⟨st.embeddings, st.lineCount + 1⟩

/-- The extraction loop `for line in f: …` over the whole file. -/
def runLines (required : List String) (vocabSize : Nat) :
    SubState → List String → Except PyError SubState
  | st, [] => .ok st
  | st, l :: ls =>
    match processLine required vocabSize st l with
    | .error e => .error e
    | .ok st2 => runLines required vocabSize st2 ls

/-- What `generate_subset` produces: the accumulated embedding table (written
as JSON) and the reported missing required words
(`missing = REQUIRED_WORDS - set(embeddings.keys())`). -/
structure RunResult where
  embeddings : List (String × List ℚ)
  missing : List String
deriving DecidableEq, Repr

/-- `generate_subset()` on a source file given as its list of lines,
parametrised over the module constants. -/
def generate_subset (required : List String) (vocabSize : Nat)
    (lines : List String) : Except PyError RunResult :=
  match runLines required vocabSize ⟨[], 0⟩ lines with
  | .error e => .error e
  | .ok st =>
    .ok ⟨st.embeddings,
         required.filter (fun w => !decide (w ∈ st.embeddings.map Prod.fst))⟩

/-! ## Acquisition (`download_glove`) -/

/-- The filesystem facts `download_glove` consults: whether
`glove.6B.50d.txt` and `glove.6B.zip` exist. -/
structure FS where
  txtExists : Bool
  zipExists : Bool
deriving DecidableEq, Repr

/-- The observable effect of one `download_glove()` call: the resulting
filesystem state, how many network fetches and how many file writes. -/
structure DlTrace where
  fs : FS
  networkFetches : Nat
  fileWrites : Nat
deriving DecidableEq, Repr

/-- `download_glove()`: return immediately if the text file exists; otherwise
fetch the zip unless present (one network fetch, one write), then extract the
text file from it (one write). -/
def download_glove (fs : FS) : DlTrace :=
  if fs.txtExists then ⟨fs, 0, 0⟩
  else if fs.zipExists then ⟨⟨true, true⟩, 0, 1⟩
  else ⟨⟨true, true⟩, 1, 2⟩

/-! ## JSON output (`json.dump` / parsing it back) -/

/-- JSON values, as far as this script's output needs. -/
inductive Json where
  | num (q : ℚ)
  | str (s : String)
  | arr (xs : List Json)
  | obj (fields : List (String × Json))

/-- `json.dump(embeddings, f)`: the embedding table as one JSON object whose
values are arrays of numbers. -/
def encodeTable (d : List (String × List ℚ)) : Json :=
  .obj (d.map (fun p => (p.1, .arr (p.2.map .num))))

/-- Read a JSON number. -/
def decodeNum : Json → Option ℚ
  | .num q => some q
  | _ => none

/-- Read a list of JSON values as a list of numbers. -/
def decodeNums : List Json → Option (List ℚ)
  | [] => some []
  | x :: xs =>
    match decodeNum x, decodeNums xs with
    | some q, some v => some (q :: v)
    | _, _ => none

/-- Read a JSON array of numbers as a vector. -/
def decodeVec : Json → Option (List ℚ)
  | .arr xs => decodeNums xs
  | _ => none

/-- Read the fields of a JSON object as a word → vector table. -/
def decodeFields : List (String × Json) → Option (List (String × List ℚ))
  | [] => some []
  | p :: ps =>
    match decodeVec p.2, decodeFields ps with
    | some v, some t => some ((p.1, v) :: t)
    | _, _ => none

/-- Parse the produced JSON object back into a word → vector table. -/
def decodeTable : Json → Option (List (String × List ℚ))
  | .obj fs => decodeFields fs
  | _ => none

/-- The top-level keys of a JSON object. -/
def jsonKeys : Json → List String
  | .obj fs => fs.map Prod.fst
  | _ => []

/-! ## Derived notions used in the statements -/

/-- The word token of a line, when the line has any token at all. -/
def lineWord (l : String) : Option String :=
  (pyTokenize l).head?

/-- A well-formed source line: a word token followed by exactly 50 tokens
that `float` accepts (the input contract of the extraction stage). -/
def wfLine (l : String) : Bool :=
  match pyTokenize l with
  | [] => false
  | _ :: rest =>
    match parseVec rest with
    | some v => v.length == 50
    | none => false

/-- `keptIn required vocabSize c ls w`: some line of `ls` has word `w` and is
kept by the loop's predicate, when the cursor starts at `c`. -/
def keptIn (required : List String) (vocabSize : Nat) :
    Nat → List String → String → Bool
  | _, [], _ => false
  | c, l :: ls, w =>
    (lineWord l == some w && (decide (c < vocabSize) || decide (w ∈ required)))
      || keptIn required vocabSize (c + 1) ls w

/-! ## Concrete test data (the spec's end-to-end scenario) -/

/-- A synthetic well-formed source line: a word followed by 50 components. -/
def testLine (w : String) : String :=
  w ++ String.join (List.replicate 50 " 1")

/-- The spec's three-line synthetic source file. -/
def testLines : List String :=
  [testLine "alpha", testLine "beta", testLine "king"]

/-- The result of the extraction on `testLines` with top-K 2 and required
word `king`. -/
def testResult : RunResult :=
  ⟨[("alpha", List.replicate 50 1), ("beta", List.replicate 50 1),
    ("king", List.replicate 50 1)], []⟩

/-! ## Basic lemmas -/

theorem dictInsert_keys (d : List (String × List ℚ)) (k : String) (v : List ℚ) :
    (dictInsert d k v).map Prod.fst =
      if k ∈ d.map Prod.fst then d.map Prod.fst else d.map Prod.fst ++ [k] := by
  unfold dictInsert
  by_cases h : k ∈ d.map Prod.fst
  · obtain ⟨p, hp, he⟩ := List.mem_map.mp h
    have hany : d.any (fun p => p.1 == k) = true := by
      rw [List.any_eq_true]
      exact ⟨p, hp, by simp [he]⟩
    rw [if_pos hany, if_pos h, List.map_map]
    apply List.map_congr_left
    intro q _
    by_cases hq : q.1 = k
    · simp [hq]
    · simp [hq]
  · have hany : d.any (fun p => p.1 == k) = false := by
      rw [List.any_eq_false]
      intro p hp hk
      exact h (List.mem_map.mpr ⟨p, hp, by simpa using hk⟩)
    rw [hany, if_neg h]
    simp

theorem dictInsert_keys_mem (d : List (String × List ℚ)) (k : String) (v : List ℚ)
    (w : String) :
    w ∈ (dictInsert d k v).map Prod.fst ↔ w = k ∨ w ∈ d.map Prod.fst := by
  rw [dictInsert_keys]
  by_cases h : k ∈ d.map Prod.fst
  · rw [if_pos h]
    constructor
    · exact Or.inr
    · rintro (rfl | hw)
      · exact h
      · exact hw
  · rw [if_neg h]
    simp [or_comm]

theorem dictInsert_keys_nodup (d : List (String × List ℚ)) (k : String) (v : List ℚ)
    (h : (d.map Prod.fst).Nodup) : ((dictInsert d k v).map Prod.fst).Nodup := by
  rw [dictInsert_keys]
  by_cases hk : k ∈ d.map Prod.fst
  · rwa [if_pos hk]
  · rw [if_neg hk, List.nodup_append]
    refine ⟨h, List.nodup_singleton k, ?_⟩
    intro a ha hb
    rw [List.mem_singleton] at hb
    subst hb
    exact hk ha

theorem dictInsert_mem_values (d : List (String × List ℚ)) (k : String) (v : List ℚ) :
    ∀ p ∈ dictInsert d k v, p.2 = v ∨ p ∈ d := by
  unfold dictInsert
  split
  · intro p hp
    obtain ⟨q, hq, he⟩ := List.mem_map.mp hp
    by_cases h : q.1 = k
    · left
      rw [← he, if_pos h]
    · right
      rwa [← he, if_neg h]
  · intro p hp
    rcases List.mem_append.mp hp with h | h
    · exact Or.inr h
    · left
      rw [List.mem_singleton.mp h]

/-- Destruct well-formedness of a line into its parts. -/
theorem wfLine_elim (l : String) (h : wfLine l = true) :
    ∃ w rest vec, pyTokenize l = w :: rest ∧ parseVec rest = some vec ∧
      vec.length = 50 := by
  unfold wfLine at h
  rcases htok : pyTokenize l with _ | ⟨w, rest⟩ <;> rw [htok] at h
  · cases h
  · dsimp only at h
    rcases hvec : parseVec rest with _ | vec <;> rw [hvec] at h
    · cases h
    · exact ⟨w, rest, vec, rfl, hvec, by simpa using h⟩

theorem wfLine_lineWord (l : String) (h : wfLine l = true) :
    ∃ w, lineWord l = some w := by
  obtain ⟨w, rest, vec, htok, -, -⟩ := wfLine_elim l h
  exact ⟨w, by simp [lineWord, htok]⟩

/-- Unfolding `processLine` on a line whose token list is nonempty. -/
theorem processLine_eq (required : List String) (vocabSize : Nat) (st : SubState)
    (line w : String) (rest : List String) (htok : pyTokenize line = w :: rest) :
    processLine required vocabSize st line =
      if st.lineCount < vocabSize ∨ w ∈ required then
        match parseVec rest with
        | none => .error .valueError
        | some vec =>
          .ok ⟨if vec.length = 50 then dictInsert st.embeddings w vec
               else st.embeddings, st.lineCount + 1⟩
      else .ok ⟨st.embeddings, st.lineCount + 1⟩ := by
  unfold processLine
  rw [htok]

/-- Unfolding `processLine` on a blank line: `parts[0]` raises `IndexError`. -/
theorem processLine_blank_eq (required : List String) (vocabSize : Nat)
    (st : SubState) (line : String) (htok : pyTokenize line = []) :
    processLine required vocabSize st line = .error .indexError := by
  unfold processLine
  rw [htok]

theorem runLines_nil (required : List String) (vocabSize : Nat) (st : SubState) :
    runLines required vocabSize st [] = .ok st := rfl

theorem runLines_cons (required : List String) (vocabSize : Nat) (st : SubState)
    (l : String) (ls : List String) :
    runLines required vocabSize st (l :: ls) =
      match processLine required vocabSize st l with
      | .error e => .error e
      | .ok st2 => runLines required vocabSize st2 ls := rfl

theorem processLine_ok_lineCount (required : List String) (vocabSize : Nat)
    (st : SubState) (line : String) (st2 : SubState)
    (h : processLine required vocabSize st line = .ok st2) :
    st2.lineCount = st.lineCount + 1 := by
  rcases htok : pyTokenize line with _ | ⟨w, rest⟩
  · rw [processLine_blank_eq required vocabSize st line htok] at h
    cases h
  · rw [processLine_eq required vocabSize st line w rest htok] at h
    split at h
    · rcases hvec : parseVec rest with _ | vec <;> rw [hvec] at h <;>
        dsimp only at h
      · cases h
      · cases h
        rfl
    · cases h
      rfl

theorem runLines_ok_lineCount (required : List String) (vocabSize : Nat) :
    ∀ (ls : List String) (st st2 : SubState),
      runLines required vocabSize st ls = .ok st2 →
      st2.lineCount = st.lineCount + ls.length := by
  intro ls
  induction ls with
  | nil =>
    intro st st2 h
    rw [runLines_nil] at h
    cases h
    simp
  | cons l ls ih =>
    intro st st2 h
    rw [runLines_cons] at h
    rcases hp : processLine required vocabSize st l with e | st1 <;>
      rw [hp] at h <;> dsimp only at h
    · cases h
    · have h1 := processLine_ok_lineCount required vocabSize st l st1 hp
      have h2 := ih st1 st2 h
      rw [h2, h1, List.length_cons]
      omega

theorem runLines_append (required : List String) (vocabSize : Nat) :
    ∀ (pre suf : List String) (st st1 : SubState),
      runLines required vocabSize st pre = .ok st1 →
      runLines required vocabSize st (pre ++ suf) =
        runLines required vocabSize st1 suf := by
  intro pre
  induction pre with
  | nil =>
    intro suf st st1 h
    rw [runLines_nil] at h
    cases h
    rfl
  | cons l pre ih =>
    intro suf st st1 h
    rw [runLines_cons] at h
    rw [List.cons_append, runLines_cons]
    rcases hp : processLine required vocabSize st l with e | st2 <;>
      rw [hp] at h <;> dsimp only at h ⊢
    · cases h
    · exact ih suf st2 st1 h

theorem generate_subset_eq_ok (required : List String) (vocabSize : Nat)
    (lines : List String) (st : SubState)
    (h : runLines required vocabSize ⟨[], 0⟩ lines = .ok st) :
    generate_subset required vocabSize lines =
      .ok ⟨st.embeddings,
        required.filter (fun w => !decide (w ∈ st.embeddings.map Prod.fst))⟩ := by
  unfold generate_subset
  rw [h]

theorem generate_subset_eq_error (required : List String) (vocabSize : Nat)
    (lines : List String) (e : PyError)
    (h : runLines required vocabSize ⟨[], 0⟩ lines = .error e) :
    generate_subset required vocabSize lines = .error e := by
  unfold generate_subset
  rw [h]

/-- The central loop invariant: on a well-formed suffix the loop succeeds,
advances the cursor by the number of lines, and the final key set is the
starting key set plus exactly the kept words; key distinctness is
preserved. -/
theorem runLines_wf_char (required : List String) (vocabSize : Nat) :
    ∀ (ls : List String) (d : List (String × List ℚ)) (c : Nat),
      (∀ l ∈ ls, wfLine l = true) →
      ∃ d', runLines required vocabSize ⟨d, c⟩ ls = .ok ⟨d', c + ls.length⟩ ∧
        (∀ w, w ∈ d'.map Prod.fst ↔
          (w ∈ d.map Prod.fst ∨ keptIn required vocabSize c ls w = true)) ∧
        ((d.map Prod.fst).Nodup → (d'.map Prod.fst).Nodup) := by
  intro ls
  induction ls with
  | nil =>
    intro d c _
    exact ⟨d, by simp [runLines_nil], fun w => by simp [keptIn], id⟩
  | cons l ls ih =>
    intro d c hwf
    obtain ⟨w0, rest, vec, htok, hvec, hlen⟩ := wfLine_elim l (hwf l (by simp))
    have hwf2 : ∀ l2 ∈ ls, wfLine l2 = true := fun l2 hl2 => hwf l2 (by simp [hl2])
    have hlw : lineWord l = some w0 := by simp [lineWord, htok]
    rw [runLines_cons, processLine_eq required vocabSize ⟨d, c⟩ l w0 rest htok]
    by_cases hkept : (⟨d, c⟩ : SubState).lineCount < vocabSize ∨ w0 ∈ required
    · rw [if_pos hkept, hvec]
      dsimp only
      rw [if_pos hlen]
      obtain ⟨d2, hrun, hmem, hnd⟩ := ih (dictInsert d w0 vec) (c + 1) hwf2
      refine ⟨d2, ?_, ?_, ?_⟩
      · rw [hrun, List.length_cons,
          show c + (ls.length + 1) = (c + 1) + ls.length from by omega]
      · intro w
        rw [hmem w, dictInsert_keys_mem]
        simp only [keptIn, hlw, Bool.or_eq_true, Bool.and_eq_true, beq_iff_eq,
          decide_eq_true_eq, Option.some.injEq]
        constructor
        · rintro ((rfl | hK) | hB)
          · exact Or.inr (Or.inl ⟨rfl, hkept⟩)
          · exact Or.inl hK
          · exact Or.inr (Or.inr hB)
        · rintro (hK | (⟨heq, -⟩ | hB))
          · exact Or.inl (Or.inr hK)
          · exact Or.inl (Or.inl heq.symm)
          · exact Or.inr hB
      · intro hd
        exact hnd (dictInsert_keys_nodup d w0 vec hd)
    · rw [if_neg hkept]
      dsimp only
      obtain ⟨d2, hrun, hmem, hnd⟩ := ih d (c + 1) hwf2
      refine ⟨d2, ?_, ?_, hnd⟩
      · rw [hrun, List.length_cons,
          show c + (ls.length + 1) = (c + 1) + ls.length from by omega]
      · intro w
        rw [hmem w]
        have hc2 : ¬ c < vocabSize := fun h2 => hkept (Or.inl h2)
        have hr2 : w0 ∉ required := fun h2 => hkept (Or.inr h2)
        simp only [keptIn, hlw, Bool.or_eq_true, Bool.and_eq_true, beq_iff_eq,
          decide_eq_true_eq, Option.some.injEq]
        constructor
        · rintro (hK | hB)
          · exact Or.inl hK
          · exact Or.inr (Or.inr hB)
        · rintro (hK | (⟨heq, hC⟩ | hB))
          · exact Or.inl hK
          · cases hC with
            | inl h2 => exact absurd h2 hc2
            | inr h2 =>
              subst heq
              exact absurd h2 hr2
          · exact Or.inr hB

/-- `keptIn` is exactly: the word of one of the first `vocabSize - c` lines,
or a required word occurring anywhere. -/
theorem keptIn_iff (required : List String) (vocabSize : Nat) :
    ∀ (ls : List String) (c : Nat) (w : String),
      keptIn required vocabSize c ls w = true ↔
        (w ∈ (ls.take (vocabSize - c)).filterMap lineWord ∨
          (w ∈ required ∧ w ∈ ls.filterMap lineWord)) := by
  intro ls
  induction ls with
  | nil =>
    intro c w
    simp [keptIn]
  | cons l ls ih =>
    intro c w
    simp only [keptIn, Bool.or_eq_true, Bool.and_eq_true, beq_iff_eq,
      decide_eq_true_eq, ih (c + 1) w]
    by_cases hc : c < vocabSize
    · rw [show vocabSize - c = (vocabSize - (c + 1)) + 1 from by omega,
        List.take_succ_cons]
      rcases hl : lineWord l with _ | w0
      · simp only [List.filterMap_cons, hl, hc, true_or]
        tauto
      · simp only [List.filterMap_cons, hl, hc, true_or, List.mem_cons,
          Option.some.injEq]
        by_cases hww : w = w0
        · subst hww
          tauto
        · have hww2 : ¬ (w0 = w) := fun h2 => hww h2.symm
          tauto
    · rw [show vocabSize - c = 0 from by omega,
        show vocabSize - (c + 1) = 0 from by omega]
      simp only [List.take_zero, List.filterMap_nil, List.not_mem_nil, false_or]
      rcases hl : lineWord l with _ | w0
      · simp only [List.filterMap_cons, hl, hc, false_or, Option.some.injEq]
        tauto
      · simp only [List.filterMap_cons, hl, hc, false_or, List.mem_cons,
          Option.some.injEq]
        by_cases hww : w = w0
        · subst hww
          tauto
        · have hww2 : ¬ (w0 = w) := fun h2 => hww h2.symm
          tauto

/-- Every vector stored by one loop iteration has length 50. -/
theorem processLine_values (required : List String) (vocabSize : Nat)
    (st : SubState) (line : String) (st2 : SubState)
    (h : processLine required vocabSize st line = .ok st2)
    (hv : ∀ p ∈ st.embeddings, p.2.length = 50) :
    ∀ p ∈ st2.embeddings, p.2.length = 50 := by
  rcases htok : pyTokenize line with _ | ⟨w, rest⟩
  · rw [processLine_blank_eq required vocabSize st line htok] at h
    cases h
  · rw [processLine_eq required vocabSize st line w rest htok] at h
    split at h
    · rcases hvec : parseVec rest with _ | vec <;> rw [hvec] at h <;>
        dsimp only at h
      · cases h
      · cases h
        intro p hp
        dsimp only at hp
        split at hp
        · rename_i hlen
          rcases dictInsert_mem_values st.embeddings w vec p hp with h50 | hmem
          · rw [h50, hlen]
          · exact hv p hmem
        · exact hv p hp
    · cases h
      exact hv

/-- Every vector stored by the whole loop has length 50. -/
theorem runLines_values (required : List String) (vocabSize : Nat) :
    ∀ (ls : List String) (st st2 : SubState),
      runLines required vocabSize st ls = .ok st2 →
      (∀ p ∈ st.embeddings, p.2.length = 50) →
      ∀ p ∈ st2.embeddings, p.2.length = 50 := by
  intro ls
  induction ls with
  | nil =>
    intro st st2 h hv
    rw [runLines_nil] at h
    cases h
    exact hv
  | cons l ls ih =>
    intro st st2 h hv
    rw [runLines_cons] at h
    rcases hp : processLine required vocabSize st l with e | st1 <;>
      rw [hp] at h <;> dsimp only at h
    · cases h
    · exact ih st1 st2 h (processLine_values required vocabSize st l st1 hp hv)

theorem decodeNums_encode (v : List ℚ) :
    decodeNums (v.map Json.num) = some v := by
  induction v with
  | nil => rfl
  | cons q v ih => simp [decodeNums, decodeNum, ih]

theorem decodeVec_encode (v : List ℚ) :
    decodeVec (Json.arr (v.map Json.num)) = some v :=
  decodeNums_encode v

/-- Serialising the embedding table and parsing it back is the identity. -/
theorem decodeTable_encodeTable (d : List (String × List ℚ)) :
    decodeTable (encodeTable d) = some d := by
  show decodeFields (d.map fun p => (p.1, Json.arr (p.2.map Json.num))) = some d
  induction d with
  | nil => rfl
  | cons p d ih => simp [decodeFields, decodeVec_encode, ih]

/-- The keys of the produced JSON object are the keys of the table. -/
theorem jsonKeys_encodeTable (d : List (String × List ℚ)) :
    jsonKeys (encodeTable d) = d.map Prod.fst := by
  simp [jsonKeys, encodeTable, List.map_map, Function.comp]

/-- On well-formed lines every line contributes exactly one word. -/
theorem filterMap_lineWord_length (ls : List String)
    (hwf : ∀ l ∈ ls, wfLine l = true) :
    (ls.filterMap lineWord).length = ls.length := by
  induction ls with
  | nil => rfl
  | cons l ls ih =>
    obtain ⟨w, hw⟩ := wfLine_lineWord l (hwf l (by simp))
    simp [List.filterMap_cons, hw, ih (fun l2 hl2 => hwf l2 (by simp [hl2]))]

/-- Tokenising an all-whitespace character list yields no tokens. -/
theorem splitWsAux_whitespace :
    ∀ cs : List Char, (∀ c ∈ cs, c.isWhitespace = true) →
      splitWsAux cs [] = [] := by
  intro cs
  induction cs with
  | nil =>
    intro _
    rfl
  | cons c cs ih =>
    intro h
    have hc := h c (by simp)
    simp only [splitWsAux, hc, List.isEmpty_nil, if_true]
    exact ih fun c2 hc2 => h c2 (by simp [hc2])

/-! ## Claims -/

/-- Claim C1: for every well-formed source file of `N` lines and top-K
threshold `K < N`, `generate_subset` succeeds and the key set of the produced
mapping has no duplicates, a word is a key iff some line carrying it is kept
(zero-based position below `K`, or word in the required set — `keptIn`), and
the key set is exactly the words of the first `K` lines unioned with the
required words appearing anywhere in the file. -/
theorem keep_predicate_partition (required : List String) (K : Nat)
    (lines : List String) (hwf : ∀ l ∈ lines, wfLine l = true)
    (_hK : K < lines.length) :
    ∃ r, generate_subset required K lines = .ok r ∧
      (r.embeddings.map Prod.fst).Nodup ∧
      (∀ w, w ∈ r.embeddings.map Prod.fst ↔
        keptIn required K 0 lines w = true) ∧
      (∀ w, w ∈ r.embeddings.map Prod.fst ↔
        (w ∈ (lines.take K).filterMap lineWord ∨
          (w ∈ required ∧ w ∈ lines.filterMap lineWord))) := by
  obtain ⟨d2, hrun, hmem, hnd⟩ := runLines_wf_char required K lines [] 0 hwf
  refine ⟨_, generate_subset_eq_ok required K lines _ hrun, ?_, ?_, ?_⟩
  · show (d2.map Prod.fst).Nodup
    exact hnd (by simp)
  · intro w
    show w ∈ d2.map Prod.fst ↔ keptIn required K 0 lines w = true
    rw [hmem w]
    simp
  · intro w
    show w ∈ d2.map Prod.fst ↔
      (w ∈ (lines.take K).filterMap lineWord ∨
        (w ∈ required ∧ w ∈ lines.filterMap lineWord))
    rw [hmem w, keptIn_iff required K lines 0 w, Nat.sub_zero]
    simp

/-- Witness for C1: the spec's end-to-end scenario — three lines
`alpha`/`beta`/`king`, top-K 2, required `{king}`. -/
theorem keep_predicate_partition_witness :
    (∀ l ∈ testLines, wfLine l = true) ∧ 2 < testLines.length ∧
      ∃ r, generate_subset ["king"] 2 testLines = .ok r ∧
        (r.embeddings.map Prod.fst).Nodup ∧
        (∀ w, w ∈ r.embeddings.map Prod.fst ↔
          keptIn ["king"] 2 0 testLines w = true) ∧
        (∀ w, w ∈ r.embeddings.map Prod.fst ↔
          (w ∈ (testLines.take 2).filterMap lineWord ∨
            (w ∈ ["king"] ∧ w ∈ testLines.filterMap lineWord))) :=
  ⟨by with_unfolding_all decide, by decide,
    keep_predicate_partition ["king"] 2 testLines
      (by with_unfolding_all decide) (by decide)⟩

/-- Claim C2: on a well-formed source file with pairwise-distinct words and
at least `K` lines, the produced mapping has at least `K` entries. -/
theorem subset_size_lower_bound (required : List String) (K : Nat)
    (lines : List String) (hwf : ∀ l ∈ lines, wfLine l = true)
    (hnd : (lines.filterMap lineWord).Nodup) (hK : K ≤ lines.length) :
    ∃ r, generate_subset required K lines = .ok r ∧
      K ≤ r.embeddings.length := by
  obtain ⟨d2, hrun, hmem, hndk⟩ := runLines_wf_char required K lines [] 0 hwf
  refine ⟨_, generate_subset_eq_ok required K lines _ hrun, ?_⟩
  show K ≤ d2.length
  have hkeys : (d2.map Prod.fst).Nodup := hndk (by simp)
  have hsub : ∀ w ∈ (lines.take K).filterMap lineWord, w ∈ d2.map Prod.fst := by
    intro w hw
    rw [hmem w]
    right
    rw [keptIn_iff required K lines 0 w, Nat.sub_zero]
    exact Or.inl hw
  have hknd : ((lines.take K).filterMap lineWord).Nodup :=
    List.Nodup.sublist ((List.take_sublist K lines).filterMap lineWord) hnd
  have hlen : ((lines.take K).filterMap lineWord).length = K := by
    have hwf2 : ∀ l ∈ lines.take K, wfLine l = true :=
      fun l hl => hwf l (List.mem_of_mem_take hl)
    rw [filterMap_lineWord_length (lines.take K) hwf2, List.length_take]
    omega
  calc K = ((lines.take K).filterMap lineWord).length := hlen.symm
    _ = ((lines.take K).filterMap lineWord).toFinset.card :=
        (List.toFinset_card_of_nodup hknd).symm
    _ ≤ (d2.map Prod.fst).toFinset.card := by
        apply Finset.card_le_card
        intro x hx
        rw [List.mem_toFinset] at hx ⊢
        exact hsub x hx
    _ ≤ (d2.map Prod.fst).length := List.toFinset_card_le _
    _ = d2.length := by simp

/-- Witness for C2: three well-formed distinct-word lines, `K = 3`. -/
theorem subset_size_lower_bound_witness :
    (∀ l ∈ testLines, wfLine l = true) ∧
      (testLines.filterMap lineWord).Nodup ∧ 3 ≤ testLines.length ∧
      ∃ r, generate_subset ["king"] 3 testLines = .ok r ∧
        3 ≤ r.embeddings.length :=
  ⟨by with_unfolding_all decide, by with_unfolding_all decide, by decide,
    subset_size_lower_bound ["king"] 3 testLines
      (by with_unfolding_all decide) (by with_unfolding_all decide) (by decide)⟩

/-- Claim C3: a kept line whose parsed component count is not 50 is dropped:
the loop returns successfully with the mapping unchanged (the word is not
inserted), the cursor advances, and processing continues with the remaining
lines. -/
theorem dimensionality_guard (required : List String) (K : Nat)
    (st : SubState) (line w : String) (rest : List String) (vec : List ℚ)
    (htok : pyTokenize line = w :: rest)
    (hkept : st.lineCount < K ∨ w ∈ required)
    (hvec : parseVec rest = some vec) (hlen : vec.length ≠ 50) :
    processLine required K st line = .ok ⟨st.embeddings, st.lineCount + 1⟩ ∧
    ∀ ls, runLines required K st (line :: ls) =
      runLines required K ⟨st.embeddings, st.lineCount + 1⟩ ls := by
  have h1 : processLine required K st line =
      .ok ⟨st.embeddings, st.lineCount + 1⟩ := by
    rw [processLine_eq required K st line w rest htok, if_pos hkept, hvec]
    dsimp only
    rw [if_neg hlen]
  exact ⟨h1, fun ls => by rw [runLines_cons, h1]⟩

/-- Witness for C3: a kept line with only two numeric tokens. -/
theorem dimensionality_guard_witness :
    pyTokenize "a 1 1" = ["a", "1", "1"] ∧
    ((⟨[], 0⟩ : SubState).lineCount < 1 ∨ "a" ∈ ([] : List String)) ∧
    parseVec ["1", "1"] = some [1, 1] ∧ ([1, 1] : List ℚ).length ≠ 50 ∧
    processLine [] 1 ⟨[], 0⟩ "a 1 1" = .ok ⟨[], 1⟩ := by
  refine ⟨by with_unfolding_all rfl, Or.inl (by decide),
    by with_unfolding_all rfl, by decide, ?_⟩
  exact (dimensionality_guard [] 1 ⟨[], 0⟩ "a 1 1" "a" ["1", "1"] [1, 1]
    (by with_unfolding_all rfl) (Or.inl (by decide))
    (by with_unfolding_all rfl) (by decide)).1

/-- Claim C4: on a well-formed file the run always completes; the reported
missing words are exactly the set difference (required words minus mapping
keys), and the written JSON object omits each of them. -/
theorem missing_word_reporting (required : List String) (K : Nat)
    (lines : List String) (hwf : ∀ l ∈ lines, wfLine l = true) :
    ∃ r, generate_subset required K lines = .ok r ∧
      (∀ w, w ∈ r.missing ↔
        (w ∈ required ∧ w ∉ r.embeddings.map Prod.fst)) ∧
      (∀ w ∈ r.missing, w ∉ jsonKeys (encodeTable r.embeddings)) := by
  obtain ⟨d2, hrun, -, -⟩ := runLines_wf_char required K lines [] 0 hwf
  refine ⟨_, generate_subset_eq_ok required K lines _ hrun, ?_, ?_⟩
  · intro w
    show w ∈ required.filter (fun w => !decide (w ∈ d2.map Prod.fst)) ↔ _
    simp [List.mem_filter]
  · intro w hw
    show w ∉ jsonKeys (encodeTable d2)
    rw [jsonKeys_encodeTable]
    have hw2 : w ∈ required.filter (fun w => !decide (w ∈ d2.map Prod.fst)) := hw
    rw [List.mem_filter] at hw2
    simpa using hw2.2

/-- Witness for C4: the required word `zzz` is absent from the synthetic
source; the run completes and reports it. -/
theorem missing_word_reporting_witness :
    (∀ l ∈ testLines, wfLine l = true) ∧
      ∃ r, generate_subset ["king", "zzz"] 2 testLines = .ok r ∧
        (∀ w, w ∈ r.missing ↔
          (w ∈ ["king", "zzz"] ∧ w ∉ r.embeddings.map Prod.fst)) ∧
        (∀ w ∈ r.missing, w ∉ jsonKeys (encodeTable r.embeddings)) :=
  ⟨by with_unfolding_all decide,
    missing_word_reporting ["king", "zzz"] 2 testLines
      (by with_unfolding_all decide)⟩

/-- Claim C5: parsing the JSON written by a successful run recovers the
accumulated mapping exactly, and every stored vector has length 50. -/
theorem json_round_trip (required : List String) (K : Nat)
    (lines : List String) (r : RunResult)
    (h : generate_subset required K lines = .ok r) :
    decodeTable (encodeTable r.embeddings) = some r.embeddings ∧
    ∀ p ∈ r.embeddings, p.2.length = 50 := by
  refine ⟨decodeTable_encodeTable r.embeddings, ?_⟩
  unfold generate_subset at h
  rcases hrun : runLines required K ⟨[], 0⟩ lines with e | st <;>
    rw [hrun] at h <;> dsimp only at h
  · cases h
  · cases h
    exact runLines_values required K lines ⟨[], 0⟩ st hrun (by simp)

/-- Witness for C5: the end-to-end scenario's output round-trips. -/
theorem json_round_trip_witness :
    generate_subset ["king"] 2 testLines = .ok testResult ∧
      (decodeTable (encodeTable testResult.embeddings) =
          some testResult.embeddings ∧
        ∀ p ∈ testResult.embeddings, p.2.length = 50) :=
  ⟨by with_unfolding_all rfl,
    json_round_trip ["king"] 2 testLines testResult (by with_unfolding_all rfl)⟩

/-- Claim C6: kept components are stored rounded to 6 decimal places; in
particular the input component `0.1234567` is stored as `0.123457` — both as
the parsed-and-rounded value and as the value recorded in the mapping by a
kept line. -/
theorem rounding_six_places :
    (parseFloat "0.1234567").map pyRound6 = some ((123457 : ℚ) / 1000000) ∧
    processLine ["w"] 1 ⟨[], 0⟩
        ("w 0.1234567" ++ String.join (List.replicate 49 " 1")) =
      .ok ⟨[("w", ((123457 : ℚ) / 1000000) :: List.replicate 49 1)], 1⟩ := by
  constructor <;> with_unfolding_all rfl

/-- Claim C7: `download_glove` is idempotent — when the text file exists it
returns at once with no network fetch and no file write; after any first
call the second call is such a no-op, so two consecutive calls perform at
most one network fetch. -/
theorem download_glove_idempotent (fs : FS) :
    download_glove ⟨true, fs.zipExists⟩ = ⟨⟨true, fs.zipExists⟩, 0, 0⟩ ∧
    download_glove (download_glove fs).fs = ⟨(download_glove fs).fs, 0, 0⟩ ∧
    (download_glove fs).networkFetches +
      (download_glove (download_glove fs).fs).networkFetches ≤ 1 := by
  rcases fs with ⟨t, z⟩
  cases t <;> cases z <;> decide

/-- Claim C8: a line that is not kept is skipped with no effect on the
mapping, whatever its numeric tokens contain; a kept line with a token that
`float` rejects raises a fatal `ValueError`. -/
theorem malformed_line_handling (required : List String) (K : Nat)
    (st : SubState) (line w : String) (rest : List String)
    (htok : pyTokenize line = w :: rest) :
    (¬ (st.lineCount < K ∨ w ∈ required) →
      processLine required K st line = .ok ⟨st.embeddings, st.lineCount + 1⟩) ∧
    ((st.lineCount < K ∨ w ∈ required) → parseVec rest = none →
      processLine required K st line = .error .valueError) := by
  constructor
  · intro hnk
    rw [processLine_eq required K st line w rest htok, if_neg hnk]
  · intro hk hvec
    rw [processLine_eq required K st line w rest htok, if_pos hk, hvec]

/-- Witness for C8: the line `a 1 x` is skipped when not kept, and fatal
when kept. -/
theorem malformed_line_handling_witness :
    pyTokenize "a 1 x" = ["a", "1", "x"] ∧
    parseVec ["1", "x"] = none ∧
    processLine [] 0 ⟨[], 0⟩ "a 1 x" = .ok ⟨[], 1⟩ ∧
    processLine ["a"] 0 ⟨[], 0⟩ "a 1 x" = .error .valueError := by
  refine ⟨by with_unfolding_all rfl, by with_unfolding_all rfl, ?_, ?_⟩
  · exact (malformed_line_handling [] 0 ⟨[], 0⟩ "a 1 x" "a" ["1", "x"]
      (by with_unfolding_all rfl)).1 (by decide)
  · exact (malformed_line_handling ["a"] 0 ⟨[], 0⟩ "a 1 x" "a" ["1", "x"]
      (by with_unfolding_all rfl)).2 (by decide) (by with_unfolding_all rfl)

/-- Claim C9: the cursor increases by exactly one for every consumed line
(kept, dropped or skipped); after any successful run it equals the number of
lines consumed, so at the start of each iteration it is the zero-based index
of the current line; and the mapping produced by an iteration depends on the
cursor only through the top-K comparison. -/
theorem line_cursor_properties (required : List String) (K : Nat) :
    (∀ st line st2, processLine required K st line = .ok st2 →
      st2.lineCount = st.lineCount + 1) ∧
    (∀ ls st st2, runLines required K st ls = .ok st2 →
      st2.lineCount = st.lineCount + ls.length) ∧
    (∀ d c1 c2 line, (c1 < K ↔ c2 < K) →
      Except.map SubState.embeddings (processLine required K ⟨d, c1⟩ line) =
      Except.map SubState.embeddings (processLine required K ⟨d, c2⟩ line)) := by
  refine ⟨fun st line st2 h => processLine_ok_lineCount required K st line st2 h,
    fun ls st st2 h => runLines_ok_lineCount required K ls st st2 h, ?_⟩
  intro d c1 c2 line hc
  rcases htok : pyTokenize line with _ | ⟨w, rest⟩
  · rw [processLine_blank_eq required K ⟨d, c1⟩ line htok,
      processLine_blank_eq required K ⟨d, c2⟩ line htok]
  · rw [processLine_eq required K ⟨d, c1⟩ line w rest htok,
      processLine_eq required K ⟨d, c2⟩ line w rest htok]
    by_cases h1 : (⟨d, c1⟩ : SubState).lineCount < K ∨ w ∈ required
    · have h2 : (⟨d, c2⟩ : SubState).lineCount < K ∨ w ∈ required := by
        rcases h1 with h1 | h1
        · exact Or.inl (hc.mp h1)
        · exact Or.inr h1
      rw [if_pos h1, if_pos h2]
      rcases parseVec rest with _ | vec <;> rfl
    · have h2 : ¬ ((⟨d, c2⟩ : SubState).lineCount < K ∨ w ∈ required) := by
        intro h3
        apply h1
        rcases h3 with h3 | h3
        · exact Or.inl (hc.mpr h3)
        · exact Or.inr h3
      rw [if_neg h1, if_neg h2]
      rfl

/-- Witness for C9 on concrete lines and cursors. -/
theorem line_cursor_properties_witness :
    (SubState.mk [] 1).lineCount = (SubState.mk [] 0).lineCount + 1 ∧
    (SubState.mk [] 2).lineCount =
      (SubState.mk [] 0).lineCount + (["a 1", "b 1"] : List String).length ∧
    Except.map SubState.embeddings (processLine [] 5 ⟨[], 0⟩ "a 1") =
      Except.map SubState.embeddings (processLine [] 5 ⟨[], 3⟩ "a 1") :=
  ⟨(line_cursor_properties [] 5).1 ⟨[], 0⟩ "a 1" ⟨[], 1⟩
      (by with_unfolding_all rfl),
    (line_cursor_properties [] 5).2.1 ["a 1", "b 1"] ⟨[], 0⟩ ⟨[], 2⟩
      (by with_unfolding_all rfl),
    (line_cursor_properties [] 5).2.2 [] 0 3 "a 1" (by decide)⟩

/-- Claim C10: an empty or whitespace-only line makes the per-line handler
raise `IndexError` at `parts[0]` regardless of loop state, and a run over a
file containing such a line (after any successfully processed prefix) fails
fatally with that error. -/
theorem blank_line_fatal (required : List String) (K : Nat) (st : SubState)
    (line : String) (hblank : line.data.all Char.isWhitespace = true) :
    processLine required K st line = .error .indexError ∧
    ∀ pre suf st1, runLines required K ⟨[], 0⟩ pre = .ok st1 →
      generate_subset required K (pre ++ line :: suf) = .error .indexError := by
  have htok : pyTokenize line = [] := by
    unfold pyTokenize
    rw [splitWsAux_whitespace line.data
      (by simpa [List.all_eq_true] using hblank)]
    rfl
  refine ⟨processLine_blank_eq required K st line htok, ?_⟩
  intro pre suf st1 h1
  apply generate_subset_eq_error
  rw [runLines_append required K pre (line :: suf) ⟨[], 0⟩ st1 h1, runLines_cons,
    processLine_blank_eq required K st1 line htok]

/-- Witness for C10: the whitespace-only line `" "`. -/
theorem blank_line_fatal_witness :
    (" ".data.all Char.isWhitespace = true) ∧
    processLine [] 5000 ⟨[], 0⟩ " " = .error .indexError ∧
    generate_subset [] 5000 ([] ++ " " :: []) = .error .indexError := by
  have h := blank_line_fatal [] 5000 ⟨[], 0⟩ " " (by decide)
  exact ⟨by decide, h.1, h.2 [] [] ⟨[], 0⟩ (by rfl)⟩

end GloveSubset
